import Mathlib

/-!
Verification development for the Light-DB repository: a file-backed JSON
key-value store (`Storage`, src/unnamed/part_002) with dot-path addressing,
an advisory lock-file protocol, backup-based corruption recovery, and an
in-memory LRU cache with byte-size budgeting and TTL (src/src/cacheManager.ts).

Modelling conventions:
* JSON values are a tagged inductive `JsValue`; objects are ordered
  association lists, matching JavaScript object insertion order.
* JavaScript numbers are idealized as exact rationals (ℚ).  All arithmetic
  the claims exercise (+, -, *, / with nonzero divisor, %, min, max on small
  integers) agrees with IEEE double arithmetic on those inputs.  `**` with a
  non-integer exponent (or 0 ** negative) produces an irrational or
  non-finite float and is outside this exact model; the embedding reports it
  as an explicit model-boundary error (no claim exercises `**`).
* The filesystem is modelled at the granularity the code observes it:
  a file is `missing` (ENOENT), `invalid` (text that fails JSON.parse), or
  `parsed v` (text that parses to the JSON value `v`).  Writing a document
  stores `parsed doc`; JSON.parse ∘ JSON.stringify is the identity on the
  values representable by `JsValue`.
* Asynchronous operations are modelled at quiescent points: each operation's
  full read-modify-write cycle (including any `setImmediate`-deferred cache
  cleanup) completes before the next begins, which is what the per-instance
  operation queue guarantees for awaited sequential calls.
-/

/-- A JSON value: null, boolean, number (idealized as ℚ), string, array, or
object as an ordered association list of fields (JS insertion order). -/
inductive JsValue where
  | vNull : JsValue
  | vBool (b : Bool) : JsValue
  | vNum (q : ℚ) : JsValue
  | vStr (s : String) : JsValue
  | vArr (elems : List JsValue) : JsValue
  | vObj (fields : List (String × JsValue)) : JsValue

namespace LightDB

open JsValue

/-- Object field lookup (JS property read on a plain object): value of the
first—and, for objects built by the code, only—binding of `k`. -/
def objGet : List (String × JsValue) → String → Option JsValue
  | [], _ => none
  | (k', v') :: rest, k => if k' = k then some v' else objGet rest k

/-- JS property assignment on a plain object: an existing key keeps its
position and receives the new value; a new key is appended at the end. -/
def objSet : List (String × JsValue) → String → JsValue → List (String × JsValue)
  | [], k, v => [(k, v)]
  | (k', v') :: rest, k, v =>
      if k' = k then (k', v) :: rest else (k', v') :: objSet rest k v

/-- JS `delete obj[k]` on a plain object: removes the binding of `k`. -/
def objDel : List (String × JsValue) → String → List (String × JsValue)
  | [], _ => []
  | (k', v') :: rest, k => if k' = k then rest else (k', v') :: objDel rest k

/-- JS object spread `\x7b ...a, ...b \x7d`: `a`'s bindings in order, each
overridden by `b` where `b` has the same key, then `b`'s new keys appended.
Folding JS-assignment of `b`'s fields over `a` realizes exactly that. -/
def spreadMerge (a b : List (String × JsValue)) : List (String × JsValue) :=
  b.foldl (fun acc kv => objSet acc kv.1 kv.2) a

/-- `keyPath.split "."` of the source: splits on every dot, keeping empty
segments, never returning an empty list (structural recursion over the
character list so that the kernel can evaluate it). -/
def splitDotAux : List Char → List Char → List String
  | [], acc => [String.mk acc.reverse]
  | c :: rest, acc =>
      if c = '.' then String.mk acc.reverse :: splitDotAux rest []
      else splitDotAux rest (c :: acc)

/-- JS `keyPath.split "."`. -/
def splitDot (s : String) : List String := splitDotAux s.toList []

/-- Canonical array-index interpretation of a JS property key: `arr["3"]` is
element 3, but `arr["03"]` is an (absent) plain property. -/
def parseArrayIndex (s : String) : Option Nat :=
  match s.toNat? with
  | some n => if toString n = s then some n else none
  | none => none

/-- JS property read `current[key]` for the container shapes the traversal
guards admit (plain objects and arrays; `typeof current === "object"` and the
null check exclude everything else).  Arrays expose their elements under
canonical numeric keys and their length under "length". -/
def jsGetProp : JsValue → String → Option JsValue
  | vObj fs, k => objGet fs k
  | vArr xs, k =>
      if k = "length" then some (vNum xs.length)
      else (parseArrayIndex k).bind (fun n => xs.get? n)
  | _, _ => none

/-- The `deepGet` loop guard: `current !== null && current !== undefined &&
typeof current === "object"` (null has typeof "object" but is excluded by
the explicit null check). -/
def traversable : JsValue → Bool
  | vObj _ => true
  | vArr _ => true
  | _ => false

/-- The traversal loop of `Storage.deepGet`: follow each key; bail out with
the default (modelled as `none`) if the current node is not a traversable
container or the property is undefined. -/
def deepGetGo : JsValue → List String → Option JsValue
  | cur, [] => some cur
  | cur, k :: rest =>
      if traversable cur then
        match jsGetProp cur k with
        | none => none
        | some nxt => deepGetGo nxt rest
      else none

/-- `Storage.deepGet obj keyPath`: the empty path returns the whole document;
otherwise the dot segments are followed.  `none` means the caller-supplied
default is returned. -/
def deepGetCore (data : JsValue) (keyPath : String) : Option JsValue :=
  if keyPath = "" then some data
  else deepGetGo data (splitDot keyPath)

/-- The walk of `Storage.deepSet` below the root: an intermediate child is
kept only when it is already a plain object (`!current[key] ||
typeof current[key] !== "object" || Array.isArray(current[key])` replaces
falsy values, primitives, null and arrays with a fresh `\x7b\x7d`), and the
final segment is assigned. -/
def deepSetKeys : List (String × JsValue) → List String → JsValue → List (String × JsValue)
  | fs, [], _ => fs
  | fs, [k], v => objSet fs k v
  | fs, k :: k2 :: rest, v =>
      let child : List (String × JsValue) :=
        match objGet fs k with
        | some (vObj g) => g
        | _ => []
      objSet fs k (vObj (deepSetKeys child (k2 :: rest) v))

/-- `Storage.deepSet`: throws "Key path cannot be empty" on the empty path,
otherwise assigns along the dot segments, materializing plain objects.  The
document root is a plain object whenever it comes from a validated read; a
non-object root (reachable only through an unvalidated backup recovery) is
returned unchanged, standing for JS sloppy-mode silently ignoring property
assignment on a primitive — no claim reaches that corner. -/
def deepSetE (data : JsValue) (keyPath : String) (v : JsValue) : Except String JsValue :=
  if keyPath = "" then .error "Key path cannot be empty"
  else
    match data with
    | vObj fs => .ok (vObj (deepSetKeys fs (splitDot keyPath) v))
    | other => .ok other

/-- Leaf step of `Storage.deepDelete`: `lastKey in current` followed by
`delete current[lastKey]`.  For arrays, deleting an element leaves a hole
that serializes to null (the only way the mutated document is observed is
through JSON round-tripping), and `length` is non-configurable so its delete
reports false; no claim reaches the array cases. -/
def deepDeleteLeaf : JsValue → String → Bool × JsValue
  | vObj fs, k =>
      if (objGet fs k).isSome then (true, vObj (objDel fs k)) else (false, vObj fs)
  | vArr xs, k =>
      if k = "length" then (false, vArr xs)
      else
        match parseArrayIndex k with
        | some n => if n < xs.length then (true, vArr (xs.set n vNull)) else (false, vArr xs)
        | none => (false, vArr xs)
  | other, _ => (false, other)

/-- The walk of `Storage.deepDelete`: an intermediate step requires
`current[key]` to be truthy and of typeof "object" (arrays are traversable
here, unlike in `deepSet`), else the function reports false. -/
def deepDeleteGo : JsValue → List String → Bool × JsValue
  | cur, [] => (false, cur)
  | cur, [k] => deepDeleteLeaf cur k
  | cur, k :: k2 :: rest =>
      match cur with
      | vObj fs =>
          match objGet fs k with
          | some (vObj g) =>
              let (b, child) := deepDeleteGo (vObj g) (k2 :: rest)
              (b, vObj (objSet fs k child))
          | some (vArr g) =>
              let (b, child) := deepDeleteGo (vArr g) (k2 :: rest)
              (b, vObj (objSet fs k child))
          | _ => (false, vObj fs)
      | vArr xs =>
          match (parseArrayIndex k).bind (fun n => xs.get? n) with
          | some (vObj g) =>
              match parseArrayIndex k with
              | some n =>
              let (b, child) := deepDeleteGo (vObj g) (k2 :: rest)
              (b, vArr (xs.set n child))
              | none => (false, vArr xs)
          | some (vArr g) =>
              match parseArrayIndex k with
              | some n =>
              let (b, child) := deepDeleteGo (vArr g) (k2 :: rest)
              (b, vArr (xs.set n child))
              | none => (false, vArr xs)
          | _ => (false, vArr xs)
      | other => (false, other)

/-- `Storage.deepDelete`: returns false on the empty path (no error is
raised, in contrast with `deepSet`), otherwise walks the dot segments and
removes the leaf when the full path resolves. -/
def deepDelete (data : JsValue) (keyPath : String) : Bool × JsValue :=
  if keyPath = "" then (false, data)
  else deepDeleteGo data (splitDot keyPath)

/-- What a file looks like to the code: absent (ENOENT), present but failing
JSON.parse, or present and parsing to a JSON value. -/
inductive FileContent where
  | missing : FileContent
  | invalid : FileContent
  | parsed (v : JsValue) : FileContent

/-- The `StorageOptions` of the constructor, with defaults
pretty = true, backup = false, lockTimeout = 5000. -/
structure StorageOptions where
  pretty : Bool
  backup : Bool
  lockTimeout : Nat

def defaultStorageOptions : StorageOptions :=
  { pretty := true, backup := false, lockTimeout := 5000 }

/-- The `SetOptions` of `Storage.set`; absent fields are `undefined`
(falsy), and `operation` is a string option. -/
structure SetOptions where
  merge : Bool := false
  append : Bool := false
  operation : Option String := none

/-- The on-disk state a single `Storage` instance observes: the primary
database file and the fixed-path rolling backup file. -/
structure SState where
  file : FileContent
  backupFile : FileContent

/-- JS truthiness of `options.operation`: `undefined` and the empty string
are falsy, any other string is truthy (and is the operator used). -/
def truthyOp : Option String → Option String
  | some s => if s = "" then none else some s
  | none => none

/-- The root-validation test of `Storage.readFile`: `typeof parsed ===
"object" && parsed !== null && !Array.isArray(parsed)` — only a plain
object document passes. -/
def isObjectRoot : JsValue → Bool
  | vObj _ => true
  | _ => false

/-- `Storage.readFile`: ENOENT yields an empty document; a primary file
that fails to parse, or parses to a non-object, falls back — when backup is
enabled — to `JSON.parse` of the backup file (note: the backup's parse
result is returned without the object validation applied to the primary),
and otherwise (or when the backup is itself missing or unparsable) to an
empty document.  The `console.warn` telemetry has no semantic effect. -/
def readFile (st : SState) (opts : StorageOptions) : JsValue :=
  match st.file with
  | .missing => vObj []
  | .parsed v =>
      if isObjectRoot v then v
      else if opts.backup then
        match st.backupFile with
        | .parsed w => w
        | _ => vObj []
      else vObj []
  | .invalid =>
      if opts.backup then
        match st.backupFile with
        | .parsed w => w
        | _ => vObj []
      else vObj []

/-- `Storage.writeFile`: when backup is enabled, the current raw primary
content (whatever it is, including unparsable text) is first copied to the
backup path — a read failure (ENOENT) is ignored, leaving the backup
unchanged; then the document is serialized and written to a temporary file
which is atomically renamed over the primary. -/
def writeFileS (st : SState) (opts : StorageOptions) (doc : JsValue) : SState :=
  let backup' :=
    if opts.backup then
      match st.file with
      | .missing => st.backupFile
      | fc => fc
    else st.backupFile
  { file := .parsed doc, backupFile := backup' }

/-- JS truncation toward zero, the rounding used by the `%` remainder. -/
def jsTrunc (q : ℚ) : ℤ := if 0 ≤ q then ⌊q⌋ else ⌈q⌉

/-- JS `%` remainder for finite numbers: `a - b * trunc (a / b)` (the result
takes the dividend's sign). -/
def jsRem (a b : ℚ) : ℚ := a - b * (jsTrunc (a / b) : ℚ)

/-- JS `existing ** value` restricted to the exact-rational idealization:
an integer exponent of a base (with 0 only raised to nonnegative powers)
stays rational; every other case produces an irrational or non-finite float
and is reported as a model-boundary error.  No claim exercises `**`. -/
def jsPowE (base expv : ℚ) : Except String ℚ :=
  if expv.den = 1 then
    if base = 0 ∧ expv.num < 0 then
      .error "power result is not finite (outside the exact-rational model)"
    else .ok (base ^ expv.num)
  else .error "non-integer exponent (outside the exact-rational model)"

/-- `Storage.performMathOperation`: the switch over the operator symbol,
with the division-by-zero and modulo-by-zero guards and the
`Invalid operation "..."` default. -/
def performMathOperation (existing value : ℚ) (operation : String) : Except String ℚ :=
  if operation = "+" then .ok (existing + value)
  else if operation = "-" then .ok (existing - value)
  else if operation = "*" then .ok (existing * value)
  else if operation = "/" then
    if value = 0 then .error "Division by zero" else .ok (existing / value)
  else if operation = "%" then
    if value = 0 then .error "Modulo by zero" else .ok (jsRem existing value)
  else if operation = "**" then jsPowE existing value
  else if operation = "min" then .ok (min existing value)
  else if operation = "max" then .ok (max existing value)
  else .error ("Invalid operation \"" ++ operation ++ "\"")

/-- `Storage.get`: read the document and resolve the dot path, with the
caller's default for an unresolved path. -/
def getOp (st : SState) (opts : StorageOptions) (key : String) (dflt : JsValue) : JsValue :=
  (deepGetCore (readFile st opts) key).getD dflt

/-- The result of a `deepGet` probe whose default is a freshly allocated
`Symbol("not-found")`: either a JSON value found at the path, or the
sentinel symbol itself.  Distinct `Symbol(...)` calls always allocate
distinct symbols; the allocation id records which call produced it. -/
inductive ProbeResult where
  | value (v : JsValue) : ProbeResult
  | symbol (id : Nat) : ProbeResult

/-- JS `!==` between a probe result and a freshly allocated symbol (given by
its allocation id): a non-symbol value is never identical to a symbol, and
two symbols are identical only when they are the same allocation. -/
def neFreshSymbol : ProbeResult → Nat → Bool
  | .value _, _ => true
  | .symbol a, b => a != b

/-- `Storage.has`: `deepGet(data, key, Symbol("not-found")) !==
Symbol("not-found")` — the default sentinel is the symbol allocated by the
first call (id 0) and it is compared against a second, distinct fresh
symbol (id 1). -/
def hasOp (st : SState) (opts : StorageOptions) (key : String) : Bool :=
  neFreshSymbol
    (match deepGetCore (readFile st opts) key with
     | some v => .value v
     | none => .symbol 0)
    1

/-- `Storage.set`: read, compute the existing value at the path with an
`undefined` default, then take the first applicable branch — math operation
on a numeric existing value, array append, shallow object merge, plain
overwrite — and persist the mutated document.  A thrown error (division by
zero, invalid operator, empty key path) aborts before `writeFile`, leaving
the on-disk state untouched.  In the math branch the source's
`performMathOperation` is typed `(existing: number, value: number, ...)`;
an operand outside that typed surface is reported as a model-boundary
error (no claim exercises it). -/
def setOp (st : SState) (opts : StorageOptions) (key : String) (value : JsValue)
    (so : SetOptions) : Except String SState :=
  let data := readFile st opts
  let existing := deepGetCore data key
  let newDoc : Except String JsValue :=
    match existing, truthyOp so.operation with
    | some (vNum e), some op =>
        match value with
        | vNum v => (performMathOperation e v op).bind (fun r => deepSetE data key (vNum r))
        | _ => .error "math operand is not a number (outside the typed surface)"
    | _, _ =>
        match so.append, existing, value with
        | true, some (vArr xs), vArr ys => deepSetE data key (vArr (xs ++ ys))
        | _, _, _ =>
            match so.merge, existing, value with
            | true, some (vObj fs), vObj gs => deepSetE data key (vObj (spreadMerge fs gs))
            | _, _, _ => deepSetE data key value
  newDoc.map (writeFileS st opts)

/-- `Storage.delete`: resolve and remove the path; the document is
persisted only when a removal occurred, and the boolean outcome is
returned.  No error path exists (in particular the empty path returns
false rather than throwing). -/
def deleteOp (st : SState) (opts : StorageOptions) (key : String) :
    Except String (Bool × SState) :=
  let data := readFile st opts
  let (deleted, newData) := deepDelete data key
  if deleted then .ok (true, writeFileS st opts newData)
  else .ok (false, st)

/-- `Storage.plus`: `set(key, amount, \x7b operation: '+' \x7d)`. -/
def plusOp (st : SState) (opts : StorageOptions) (key : String) (amount : ℚ) :
    Except String SState :=
  setOp st opts key (vNum amount) { operation := some "+" }

/-- `Storage.divide`: `set(key, divisor, \x7b operation: '/' \x7d)`. -/
def divideOp (st : SState) (opts : StorageOptions) (key : String) (divisor : ℚ) :
    Except String SState :=
  setOp st opts key (vNum divisor) { operation := some "/" }

/-! ## CacheManager (src/src/cacheManager.ts)

The `Map` plus intrusive doubly-linked recency list is modelled as a single
list of entries in recency order, most recent first; the code keeps the two
structures in sync (every list insertion/removal is paired with the map
update), and a `Map` holds at most one node per key, so one list carries the
same information.  `currentSize` is tracked separately, exactly as the code
updates it.  Value serialization (`Buffer.byteLength(JSON.stringify v)`) is
abstracted as a size function on the value type. -/

/-- A cache `Node`: key, value, byte size computed at insertion, and the
insertion timestamp. -/
structure CEntry (α : Type) where
  key : String
  value : α
  size : Nat
  timestamp : Nat

/-- The `CacheManager` state: entries in recency order (most recent first),
the running `currentSize` byte counter, the `maxSize` budget, and the
optional `ttl`. -/
structure Cache (α : Type) where
  list : List (CEntry α)
  currentSize : Int
  maxSize : Int
  ttl : Option Nat

/-- A fresh `CacheManager` with the given budget and TTL. -/
def emptyCache (α : Type) (maxSize : Int) (ttl : Option Nat) : Cache α :=
  { list := [], currentSize := 0, maxSize := maxSize, ttl := ttl }

/-- `removeNode` on the node holding key `k` (a `Map` holds at most one):
unlink it from the recency list. -/
def eraseKey {α : Type} : List (CEntry α) → String → List (CEntry α)
  | [], _ => []
  | e :: rest, k => if e.key = k then rest else e :: eraseKey rest k

/-- Sum of the sizes of the entries present in the recency list. -/
def sumSizes {α : Type} (l : List (CEntry α)) : Nat :=
  (l.map (fun e => e.size)).sum

/-- The `lazyCleanup` loop viewed from the least-recent end (the input here
is the recency list reversed, so its head is `this.tail`): while
`currentSize > maxSize` and a tail node exists, unlink the tail, drop it
from the map, and subtract its size. -/
def cleanupRev {α : Type} : List (CEntry α) → Int → Int → List (CEntry α) × Int
  | [], cs, _ => ([], cs)
  | e :: rest, cs, m =>
      if m < cs then cleanupRev rest (cs - (e.size : Int)) m
      else (e :: rest, cs)

/-- `CacheManager.lazyCleanup` (the `setImmediate`-deferred pass, run to
completion): evict from the least-recent end until the budget is met or the
cache is empty. -/
def lazyCleanup {α : Type} (l : List (CEntry α)) (cs m : Int) : List (CEntry α) × Int :=
  let p := cleanupRev l.reverse cs m
  (p.1.reverse, p.2)

/-- One item of `CacheManager.processWriteQueue` (a `setCache` write),
together with its deferred `lazyCleanup` when the insertion pushed
`currentSize` over budget: compute the size of the new value, unlink the
old node when the key is present (note: its size is NOT subtracted from
`currentSize`), insert the new node at the most-recent end, add its size,
and clean up if over budget. -/
def putC {α : Type} (sz : α → Nat) (c : Cache α) (k : String) (v : α) (now : Nat) :
    Cache α :=
  let size := sz v
  let l0 := if c.list.any (fun e => e.key = k) then eraseKey c.list k else c.list
  let l1 := { key := k, value := v, size := size, timestamp := now : CEntry α } :: l0
  let cs1 : Int := c.currentSize + (size : Int)
  if c.maxSize < cs1 then
    let p := lazyCleanup l1 cs1 c.maxSize
    { c with list := p.1, currentSize := p.2 }
  else { c with list := l1, currentSize := cs1 }

/-- The TTL test of `CacheManager.getCache`: `this.ttl && Date.now() -
node.timestamp > this.ttl`.  A `ttl` of 0 is falsy in JS, so it disables
expiry rather than expiring everything. -/
def ttlExpired {α : Type} (c : Cache α) (e : CEntry α) (now : Nat) : Bool :=
  match c.ttl with
  | some t => t != 0 && now - e.timestamp > t
  | none => false

/-- `CacheManager.deleteCache`: a present key is unlinked, dropped from the
map, and its size subtracted; an absent key reports false. -/
def deleteCacheC {α : Type} (c : Cache α) (k : String) : Bool × Cache α :=
  match c.list.find? (fun e => e.key = k) with
  | none => (false, c)
  | some e =>
      (true, { c with list := eraseKey c.list k,
                      currentSize := c.currentSize - (e.size : Int) })

/-- `CacheManager.getCache`: a miss resolves null; an entry older than a
truthy TTL is deleted and resolves null; otherwise the entry moves to the
most-recent end and its value is returned. -/
def getCacheC {α : Type} (c : Cache α) (k : String) (now : Nat) : Option α × Cache α :=
  match c.list.find? (fun e => e.key = k) with
  | none => (none, c)
  | some e =>
      if ttlExpired c e now then (none, (deleteCacheC c k).2)
      else (some e.value, { c with list := e :: eraseKey c.list k })

/-- `CacheManager.clearCache`: drop every entry and reset the size
counter. -/
def clearCacheC {α : Type} (c : Cache α) : Cache α :=
  { c with list := [], currentSize := 0 }

/-- A sequence of `setCache` writes, each processed to quiescence (write
applied and deferred cleanup completed) before the next, as the write queue
does for awaited sequential calls. -/
def applyPuts {α : Type} (sz : α → Nat) (c : Cache α) : List (String × α × Nat) → Cache α
  | [] => c
  | (k, v, t) :: rest => applyPuts sz (putC sz c k v t) rest

/-! ## Lock protocol (src/unnamed/part_002, acquireLock/releaseLock/withLock)

Real time is idealized to the instants at which the code acts: creation
attempts are instantaneous and happen at `start`, `start + 10`,
`start + 20`, …, separated by the fixed 10 ms backoff sleeps.  The
environment is a function `foreign t` telling whether the lock marker file
exists (held by someone else) at attempt instant `t`; an attempt with the
exclusive-create flag `wx` succeeds exactly when the file does not exist,
and atomically creates it. -/

/-- The error message of a lock-acquisition timeout. -/
def lockTimeoutMsg : String := "Failed to acquire file lock within timeout"

/-- The polling loop of `Storage.acquireLock`.  `fuel` only bounds the
recursion for Lean: the loop makes at most one attempt per 10 ms of the
timeout window, so `timeout + 1` attempts are never exhausted before the
`Date.now() - start < timeout` window check fails (when fuel would run out,
the window check at that instant fails as well, giving the same timeout
error as the unbounded loop). -/
def acquireGo (foreign : Nat → Bool) (start timeout : Nat) : Nat → Nat → Except String Nat
  | _, 0 => .error lockTimeoutMsg
  | t, fuel + 1 =>
      if t - start < timeout then
        if foreign t then acquireGo foreign start timeout (t + 10) fuel
        else .ok t
      else .error lockTimeoutMsg

/-- `Storage.acquireLock`: poll with the exclusive-create flag every 10 ms
from `start`; succeed at the first instant the marker is absent (returning
that instant), or fail with the timeout error once the window has
elapsed. -/
def acquireLock (foreign : Nat → Bool) (start timeout : Nat) : Except String Nat :=
  acquireGo foreign start timeout start (timeout + 1)

/-- `Storage.releaseLock`: unlink the marker file (an already-absent marker
is ignored); afterwards the marker does not exist. -/
def releaseLock (_markerHeld : Bool) : Bool := false

/-- The `try/finally` of `Storage.withLock` after a successful acquisition:
the marker exists while the operation runs, and `releaseLock` runs whether
the operation succeeds or throws.  Returns the operation's outcome and
whether the marker still exists afterwards. -/
def runUnderLock {α : Type} (op : Except String α) (markerHeld : Bool) :
    Except String α × Bool :=
  match op with
  | .ok a => (.ok a, releaseLock markerHeld)
  | .error e => (.error e, releaseLock markerHeld)

/-- `Storage.withLock` for one queued operation: acquire (propagating a
timeout failure, in which case no marker was ever created by us), then run
the operation under the marker with guaranteed release. -/
def withLock {α : Type} (foreign : Nat → Bool) (start timeout : Nat)
    (op : Except String α) : Except String α × Bool :=
  match acquireLock foreign start timeout with
  | .error e => (.error e, false)
  | .ok _ => runUnderLock op true

/-! ## Derived predicates used to state the claims -/

/-- Existing value is numeric (`typeof existingValue === "number"`). -/
def isNumO : Option JsValue → Bool
  | some (vNum _) => true
  | _ => false

/-- Existing value is an array (`Array.isArray(existingValue)`). -/
def isArrO : Option JsValue → Bool
  | some (vArr _) => true
  | _ => false

/-- `Array.isArray(value)`. -/
def isArrV : JsValue → Bool
  | vArr _ => true
  | _ => false

/-- `Storage.isPlainObject` on a JSON value: non-null, typeof "object", not
an array, and with `[object Object]` brand — exactly the plain objects. -/
def isPlainObject : JsValue → Bool
  | vObj _ => true
  | _ => false

/-- `Storage.isPlainObject` applied to a possibly-undefined existing value
(`typeof undefined !== "object"`, so `undefined` is not a plain object). -/
def isPlainObjectO : Option JsValue → Bool
  | some v => isPlainObject v
  | none => false

/-- Condition of `set`'s branch (1): numeric existing value and truthy
`operation`. -/
def mathCond (existing : Option JsValue) (so : SetOptions) : Bool :=
  isNumO existing && (truthyOp so.operation).isSome

/-- Condition of `set`'s branch (2): `append` requested and both existing
and new values are arrays. -/
def appendCond (existing : Option JsValue) (value : JsValue) (so : SetOptions) : Bool :=
  so.append && isArrO existing && isArrV value

/-- Condition of `set`'s branch (3): `merge` requested and both existing
and new values are plain objects. -/
def mergeCond (existing : Option JsValue) (value : JsValue) (so : SetOptions) : Bool :=
  so.merge && isPlainObjectO existing && isPlainObject value

/-- Primary file content that fails `readFile`'s object validation: text
that does not parse, or text that parses to a non-object. -/
def primaryUnusable : FileContent → Bool
  | .missing => false
  | .invalid => true
  | .parsed v => !isObjectRoot v

/-- What the backup-recovery path of `readFile` produces: the backup's
parse result when it parses (with no object validation), else the empty
document. -/
def backupFallback : FileContent → JsValue
  | .parsed w => w
  | _ => vObj []

/-- The size-accounting and budget invariant carried by the cache at
quiescent points: the tracked counter dominates the bytes actually present,
and stays within the configured budget. -/
def CacheInv {α : Type} (c : Cache α) : Prop :=
  (sumSizes c.list : Int) ≤ c.currentSize ∧ c.currentSize ≤ c.maxSize

/-! ## Lemmas about the path codec -/

theorem objGet_objSet (fs : List (String × JsValue)) (k : String) (v : JsValue) :
    objGet (objSet fs k v) k = some v := by
  induction fs with
  | nil => simp [objSet, objGet]
  | cons kv rest ih =>
      by_cases h : kv.1 = k
      · simp [objSet, objGet, h]
      · simpa [objSet, objGet, h] using ih

theorem splitDotAux_ne_nil (l acc : List Char) : splitDotAux l acc ≠ [] := by
  induction l generalizing acc with
  | nil => simp [splitDotAux]
  | cons c rest ih =>
      by_cases h : c = '.'
      · simp [splitDotAux, h]
      · simpa [splitDotAux, h] using ih (c :: acc)

theorem splitDot_ne_nil (s : String) : splitDot s ≠ [] := splitDotAux_ne_nil _ _

theorem deepGetGo_deepSetKeys (keys : List String) (hk : keys ≠ [])
    (v : JsValue) : ∀ fs, deepGetGo (vObj (deepSetKeys fs keys v)) keys = some v := by
  induction keys with
  | nil => exact absurd rfl hk
  | cons k rest ih =>
      intro fs
      cases rest with
      | nil =>
          simp [deepSetKeys, deepGetGo, traversable, jsGetProp, objGet_objSet]
      | cons k2 rest' =>
          simp only [deepSetKeys, deepGetGo, traversable, jsGetProp, objGet_objSet]
          exact ih (by simp) _

end LightDB

namespace LightDB

open JsValue

/-! ## Claim theorems for the document store -/

/-- Claim C10: for every key string and every store state, `has` returns
true — even when the dot path does not resolve — because `deepGet`'s
absence default is a freshly created Symbol that is compared (with `!==`)
against a second, distinct freshly created Symbol. -/
theorem C10_has_always_true (st : SState) (opts : StorageOptions) (key : String) :
    hasOp st opts key = true := by
  unfold hasOp
  cases h : deepGetCore (readFile st opts) key <;> simp [h, neFreshSymbol]

/-- Claim C6 (counterexample): on the empty path, `delete` does not fail
with an error — it returns false and leaves the state unchanged (the claim
asserts both `set` and `delete` fail with an error on the empty path). -/
theorem C6_empty_delete_no_error :
    deleteOp ⟨.parsed (vObj [("a", vNum 1)]), .missing⟩ defaultStorageOptions "" =
      .ok (false, ⟨.parsed (vObj [("a", vNum 1)]), .missing⟩) := rfl

/-- Claim C6 (amended): on the empty path string, `get` returns the whole
document, `set` fails with an error, and `delete` returns false without an
error and without mutating the store. -/
theorem C6_empty_path (st : SState) (opts : StorageOptions) (value : JsValue)
    (so : SetOptions) (dflt : JsValue) :
    getOp st opts "" dflt = readFile st opts
      ∧ (∃ m, setOp st opts "" value so = .error m)
      ∧ deleteOp st opts "" = .ok (false, st) := by
  refine ⟨by simp [getOp, deepGetCore], ?_, by simp [deleteOp, deepDelete]⟩
  simp only [setOp, deepGetCore, if_pos rfl]
  rcases hd : readFile st opts with _ | b | q | s | xs | fs <;>
    rcases ho : truthyOp so.operation with _ | op <;>
      rcases value with _ | b' | q' | s' | ys | gs <;>
        rcases ha : so.append with _ | _ <;>
          rcases hm : so.merge with _ | _ <;>
            first
              | (simp [hd, ho, deepSetE, Except.map]; done)
              | (cases hp : performMathOperation q q' op <;>
                  simp [hd, ho, hp, deepSetE, Except.map, Except.bind])

/-- Claim C2: the scenario `set("score", 10)`, `plus("score", 5)`,
`divide("score", 0)`, `get("score")` on one store: plus stores 15, divide
fails with the division-by-zero error without touching the persisted
document, and the following get still returns 15. -/
theorem C2_score_scenario :
    ∃ s1 s2 : SState,
      setOp ⟨.parsed (vObj []), .missing⟩ defaultStorageOptions "score" (vNum 10) {} = .ok s1
      ∧ plusOp s1 defaultStorageOptions "score" 5 = .ok s2
      ∧ getOp s2 defaultStorageOptions "score" vNull = vNum 15
      ∧ divideOp s2 defaultStorageOptions "score" 0 = .error "Division by zero"
      ∧ getOp s2 defaultStorageOptions "score" vNull = vNum 15 := by
  refine ⟨⟨.parsed (vObj [("score", vNum 10)]), .missing⟩,
          ⟨.parsed (vObj [("score", vNum (10 + 5))]), .missing⟩,
          rfl, rfl, ?_, rfl, ?_⟩ <;>
    · show vNum ((10 : ℚ) + 5) = vNum 15
      norm_num

/-- Claim C9: when the primary file's content fails to parse as a JSON
object (unparsable text, or a non-object parse) and backup is enabled, the
read falls back to the backup's parse result; when the backup is itself
missing or unparsable the store proceeds with an empty document; in
particular with a backup holding the object a ↦ 1, `get "a"` returns 1
instead of failing. -/
theorem C9_corruption_recovery (st : SState) (opts : StorageOptions) (dflt : JsValue)
    (hb : opts.backup = true) (hp : primaryUnusable st.file = true) :
    readFile st opts = backupFallback st.backupFile
      ∧ ((st.backupFile = .missing ∨ st.backupFile = .invalid) → readFile st opts = vObj [])
      ∧ (st.backupFile = .parsed (vObj [("a", vNum 1)]) → getOp st opts "a" dflt = vNum 1) := by
  have hrf : readFile st opts = backupFallback st.backupFile := by
    rcases hf : st.file with _ | _ | v <;>
      simp_all [readFile, primaryUnusable, backupFallback]
  refine ⟨hrf, ?_, ?_⟩
  · rintro (h | h) <;> simp [hrf, h, backupFallback]
  · intro h
    simp [getOp, hrf, h, backupFallback, deepGetCore, deepGetGo, splitDot,
      splitDotAux, traversable, jsGetProp, objGet]

/-- Claim C9 (witness): a concrete corrupted primary with backup enabled
and backup content a ↦ 1 recovers the value 1 through `get`. -/
theorem C9_corruption_recovery_witness :
    getOp ⟨.invalid, .parsed (vObj [("a", vNum 1)])⟩
        { pretty := true, backup := true, lockTimeout := 5000 } "a" vNull = vNum 1 :=
  (C9_corruption_recovery ⟨.invalid, .parsed (vObj [("a", vNum 1)])⟩
      { pretty := true, backup := true, lockTimeout := 5000 } vNull rfl rfl).2.2 rfl

/-- Claim C5: for every value and every non-empty dot path, a successful
`set` followed by `get` on the resulting store returns the value written
(the document read by `set` is an object, which holds whenever the primary
was produced by a validated read or write). -/
theorem C5_set_get_roundtrip (st st' : SState) (opts : StorageOptions) (p : String)
    (v : JsValue) (dflt : JsValue) (hp : p ≠ "")
    (hobj : isObjectRoot (readFile st opts) = true)
    (hset : setOp st opts p v {} = .ok st') :
    getOp st' opts p dflt = v := by
  rcases hd : readFile st opts with _ | b | q | s | xs | fs <;>
    simp [hd, isObjectRoot] at hobj
  have hdoc : st' = writeFileS st opts (vObj (deepSetKeys fs (splitDot p) v)) := by
    rw [setOp] at hset
    rcases he : deepGetCore (readFile st opts) p with _ | w
    all_goals try rcases w with _ | b' | q' | s' | ys | gs
    all_goals
      first
        | (simp [he, hd, truthyOp, deepSetE, hp, Except.map] at hset
           exact hset.symm)
        | simp
  subst hdoc
  have hread : readFile (writeFileS st opts (vObj (deepSetKeys fs (splitDot p) v))) opts
      = vObj (deepSetKeys fs (splitDot p) v) := by
    simp [readFile, writeFileS, isObjectRoot]
  simp [getOp, hread, deepGetCore, if_neg hp,
    deepGetGo_deepSetKeys (splitDot p) (splitDot_ne_nil p) v fs]

theorem setOp_math_branch (st : SState) (opts : StorageOptions) (key : String)
    (value : JsValue) (so : SetOptions) (e v : ℚ) (op : String)
    (hE : deepGetCore (readFile st opts) key = some (vNum e))
    (hOp : truthyOp so.operation = some op) (hv : value = vNum v) :
    setOp st opts key value so =
      ((performMathOperation e v op).bind
        (fun r => deepSetE (readFile st opts) key (vNum r))).map (writeFileS st opts) := by
  subst hv
  simp [setOp, hE, hOp]

theorem setOp_append_branch (st : SState) (opts : StorageOptions) (key : String)
    (value : JsValue) (so : SetOptions) (xs ys : List JsValue)
    (hE : deepGetCore (readFile st opts) key = some (vArr xs))
    (ha : so.append = true) (hv : value = vArr ys) :
    setOp st opts key value so =
      (deepSetE (readFile st opts) key (vArr (xs ++ ys))).map (writeFileS st opts) := by
  subst hv
  simp [setOp, hE, ha]

theorem setOp_merge_branch (st : SState) (opts : StorageOptions) (key : String)
    (value : JsValue) (so : SetOptions) (fs gs : List (String × JsValue))
    (hE : deepGetCore (readFile st opts) key = some (vObj fs))
    (hm : so.merge = true) (hv : value = vObj gs) :
    setOp st opts key value so =
      (deepSetE (readFile st opts) key (vObj (spreadMerge fs gs))).map (writeFileS st opts) := by
  subst hv
  simp [setOp, hE, hm]

theorem setOp_overwrite_branch (st : SState) (opts : StorageOptions) (key : String)
    (value : JsValue) (so : SetOptions)
    (h1 : mathCond (deepGetCore (readFile st opts) key) so = false)
    (h2 : appendCond (deepGetCore (readFile st opts) key) value so = false)
    (h3 : mergeCond (deepGetCore (readFile st opts) key) value so = false) :
    setOp st opts key value so =
      (deepSetE (readFile st opts) key value).map (writeFileS st opts) := by
  rcases hE : deepGetCore (readFile st opts) key with _ | w
  · simp [setOp, hE]
  · rcases w with _ | b | e | s | xs | fs
    · simp [setOp, hE]
    · simp [setOp, hE]
    · rcases ho : truthyOp so.operation with _ | op
      · simp [setOp, hE, ho]
      · simp [mathCond, isNumO, hE, ho] at h1
    · simp [setOp, hE]
    · rcases ha : so.append with _ | _
      · simp [setOp, hE, ha]
      · simp [appendCond, isArrO, hE, ha] at h2
        rcases value with _ | b' | q' | s' | ys | gs <;>
          simp_all [setOp, hE, ha, isArrV]
    · rcases hm : so.merge with _ | _
      · simp [setOp, hE, hm]
      · simp [mergeCond, isPlainObjectO, isPlainObject, hE, hm] at h3
        rcases value with _ | b' | q' | s' | ys | gs <;>
          simp_all [setOp, hE, hm, isPlainObject]

theorem performMathOperation_invalid (e v : ℚ) (op : String)
    (h : op ∉ (["+", "-", "*", "/", "%", "**", "min", "max"] : List String)) :
    performMathOperation e v op = .error ("Invalid operation \"" ++ op ++ "\"") := by
  simp only [List.mem_cons, List.mem_singleton, not_or] at h
  obtain ⟨h1, h2, h3, h4, h5, h6, h7, h8⟩ := h
  simp [performMathOperation, h1, h2, h3, h4, h5, h6, h7, h8]

/-- Claim C1: `set`'s branch is decided in exactly this precedence order
against the existing value at the path.  (1) A numeric existing value with
a truthy `operation` stores the operator applied to the existing value and
the operand, failing on the unrecognized-operator error and on the
zero-divisor errors for `/` and `%` (the code distinguishes the `%` case
with a "Modulo by zero" message, both being the division-by-zero failure
class); (2) else `append` with two arrays concatenates; (3) else `merge`
with two plain objects shallow-merges with new keys overriding; (4) else
the new value overwrites unconditionally. -/
theorem C1_set_branch_precedence (st : SState) (opts : StorageOptions) (key : String)
    (value : JsValue) (so : SetOptions) :
    (∀ e v op, deepGetCore (readFile st opts) key = some (vNum e) →
      truthyOp so.operation = some op → value = vNum v →
        (setOp st opts key value so =
          ((performMathOperation e v op).bind
            (fun r => deepSetE (readFile st opts) key (vNum r))).map (writeFileS st opts))
        ∧ (op ∉ (["+", "-", "*", "/", "%", "**", "min", "max"] : List String) →
            setOp st opts key value so = .error ("Invalid operation \"" ++ op ++ "\""))
        ∧ (op = "/" → v = 0 → setOp st opts key value so = .error "Division by zero")
        ∧ (op = "%" → v = 0 → setOp st opts key value so = .error "Modulo by zero"))
    ∧ (∀ xs ys, mathCond (deepGetCore (readFile st opts) key) so = false →
        so.append = true → deepGetCore (readFile st opts) key = some (vArr xs) →
        value = vArr ys →
          setOp st opts key value so =
            (deepSetE (readFile st opts) key (vArr (xs ++ ys))).map (writeFileS st opts))
    ∧ (∀ fs gs, mathCond (deepGetCore (readFile st opts) key) so = false →
        appendCond (deepGetCore (readFile st opts) key) value so = false →
        so.merge = true → deepGetCore (readFile st opts) key = some (vObj fs) →
        value = vObj gs →
          setOp st opts key value so =
            (deepSetE (readFile st opts) key (vObj (spreadMerge fs gs))).map (writeFileS st opts))
    ∧ (mathCond (deepGetCore (readFile st opts) key) so = false →
        appendCond (deepGetCore (readFile st opts) key) value so = false →
        mergeCond (deepGetCore (readFile st opts) key) value so = false →
          setOp st opts key value so =
            (deepSetE (readFile st opts) key value).map (writeFileS st opts)) := by
  refine ⟨?_, ?_, ?_, ?_⟩
  · intro e v op hE hOp hv
    have hmain := setOp_math_branch st opts key value so e v op hE hOp hv
    refine ⟨hmain, ?_, ?_, ?_⟩
    · intro hop
      rw [hmain, performMathOperation_invalid e v op hop]
      rfl
    · rintro rfl rfl
      rw [hmain]
      simp [performMathOperation, Except.bind, Except.map]
    · rintro rfl rfl
      rw [hmain]
      simp [performMathOperation, Except.bind, Except.map]
  · intro xs ys _ ha hE hv
    exact setOp_append_branch st opts key value so xs ys hE ha hv
  · intro fs gs _ _ hm hE hv
    exact setOp_merge_branch st opts key value so fs gs hE hm hv
  · intro h1 h2 h3
    exact setOp_overwrite_branch st opts key value so h1 h2 h3

/-- Claim C1 (witness): the math branch at a concrete store holding
score ↦ 10, with operation "+" and operand 5. -/
theorem C1_set_branch_precedence_witness :
    setOp ⟨.parsed (vObj [("score", vNum 10)]), .missing⟩ defaultStorageOptions
        "score" (vNum 5) { operation := some "+" } =
      ((performMathOperation 10 5 "+").bind
        (fun r => deepSetE (readFile ⟨.parsed (vObj [("score", vNum 10)]), .missing⟩
          defaultStorageOptions) "score" (vNum r))).map
        (writeFileS ⟨.parsed (vObj [("score", vNum 10)]), .missing⟩ defaultStorageOptions) :=
  ((C1_set_branch_precedence ⟨.parsed (vObj [("score", vNum 10)]), .missing⟩
      defaultStorageOptions "score" (vNum 5) { operation := some "+" }).1
    10 5 "+" rfl rfl rfl).1

/-- Claim C5 (witness): a concrete round trip through a two-segment path on
an initially empty store. -/
theorem C5_set_get_roundtrip_witness :
    ("user.name" ≠ "") ∧
      getOp ⟨.parsed (vObj [("user", vObj [("name", vStr "John")])]), .missing⟩
        defaultStorageOptions "user.name" vNull = vStr "John" :=
  ⟨by decide,
   C5_set_get_roundtrip ⟨.parsed (vObj []), .missing⟩
     ⟨.parsed (vObj [("user", vObj [("name", vStr "John")])]), .missing⟩
     defaultStorageOptions "user.name" (vStr "John") vNull (by decide) rfl rfl⟩

/-! ## Lemmas and claims about the cache -/

theorem sumSizes_cons {α : Type} (e : CEntry α) (l : List (CEntry α)) :
    sumSizes (e :: l) = e.size + sumSizes l := by
  simp [sumSizes]

theorem sumSizes_reverse {α : Type} (l : List (CEntry α)) :
    sumSizes l.reverse = sumSizes l := by
  simp [sumSizes, List.sum_reverse]

theorem sumSizes_eraseKey_le {α : Type} (l : List (CEntry α)) (k : String) :
    sumSizes (eraseKey l k) ≤ sumSizes l := by
  induction l with
  | nil => simp [eraseKey]
  | cons e rest ih =>
      by_cases h : e.key = k
      · simp only [eraseKey, if_pos h, sumSizes_cons]
        omega
      · simp only [eraseKey, if_neg h, sumSizes_cons]
        omega

theorem cleanupRev_spec {α : Type} (m : Int) :
    ∀ (l : List (CEntry α)) (cs : Int),
      ((cleanupRev l cs m).2 - (sumSizes (cleanupRev l cs m).1 : Int) =
        cs - (sumSizes l : Int))
      ∧ ((cleanupRev l cs m).1 = [] ∨ (cleanupRev l cs m).2 ≤ m)
      ∧ ∃ dropped, dropped ++ (cleanupRev l cs m).1 = l := by
  intro l
  induction l with
  | nil =>
      intro cs
      exact ⟨by simp [cleanupRev, sumSizes], Or.inl rfl, ⟨[], rfl⟩⟩
  | cons e rest ih =>
      intro cs
      by_cases h : m < cs
      · have hih := ih (cs - (e.size : Int))
        have hc : cleanupRev (e :: rest) cs m = cleanupRev rest (cs - (e.size : Int)) m := by
          simp [cleanupRev, h]
        rw [hc]
        refine ⟨?_, hih.2.1, ?_⟩
        · rw [hih.1, sumSizes_cons]
          push_cast
          ring
        · obtain ⟨d, hd⟩ := hih.2.2
          exact ⟨e :: d, by simp [hd]⟩
      · have hc : cleanupRev (e :: rest) cs m = (e :: rest, cs) := by
          simp [cleanupRev, h]
        rw [hc]
        exact ⟨rfl, Or.inr (show cs ≤ m by omega), ⟨[], rfl⟩⟩

theorem lazyCleanup_spec {α : Type} (l : List (CEntry α)) (cs m : Int) :
    ((lazyCleanup l cs m).2 - (sumSizes (lazyCleanup l cs m).1 : Int) =
      cs - (sumSizes l : Int))
    ∧ ((lazyCleanup l cs m).1 = [] ∨ (lazyCleanup l cs m).2 ≤ m)
    ∧ ∃ dropped, (lazyCleanup l cs m).1 ++ dropped = l := by
  obtain ⟨h1, h2, d, hd⟩ := cleanupRev_spec m l.reverse cs
  have e1 : (lazyCleanup l cs m).1 = (cleanupRev l.reverse cs m).1.reverse := rfl
  have e2 : (lazyCleanup l cs m).2 = (cleanupRev l.reverse cs m).2 := rfl
  refine ⟨?_, ?_, ?_⟩
  · rw [e1, e2, sumSizes_reverse, h1, sumSizes_reverse]
  · rcases h2 with h | h
    · exact Or.inl (by rw [e1, h]; rfl)
    · exact Or.inr (by rw [e2]; exact h)
  · refine ⟨d.reverse, ?_⟩
    rw [e1]
    have hrev := congrArg List.reverse hd
    simpa using hrev

theorem putC_over {α : Type} (sz : α → Nat) (c : Cache α) (k : String) (v : α)
    (now : Nat) (h : c.maxSize < c.currentSize + (sz v : Int)) :
    putC sz c k v now =
      { c with
        list := (lazyCleanup
          (({ key := k, value := v, size := sz v, timestamp := now : CEntry α}) ::
            (if c.list.any (fun e => e.key = k) then eraseKey c.list k else c.list))
          (c.currentSize + (sz v : Int)) c.maxSize).1,
        currentSize := (lazyCleanup
          (({ key := k, value := v, size := sz v, timestamp := now : CEntry α}) ::
            (if c.list.any (fun e => e.key = k) then eraseKey c.list k else c.list))
          (c.currentSize + (sz v : Int)) c.maxSize).2 } := by
  rw [putC]
  simp only [if_pos h]

theorem putC_under {α : Type} (sz : α → Nat) (c : Cache α) (k : String) (v : α)
    (now : Nat) (h : ¬ c.maxSize < c.currentSize + (sz v : Int)) :
    putC sz c k v now =
      { c with
        list := ({ key := k, value := v, size := sz v, timestamp := now : CEntry α}) ::
          (if c.list.any (fun e => e.key = k) then eraseKey c.list k else c.list),
        currentSize := c.currentSize + (sz v : Int) } := by
  rw [putC]
  simp only [if_neg h]

theorem putC_preserves_inv {α : Type} (sz : α → Nat) (c : Cache α) (k : String)
    (v : α) (now : Nat) (hInv : CacheInv c) : CacheInv (putC sz c k v now) := by
  obtain ⟨hsum, hmax⟩ := hInv
  have hl0 : sumSizes (if c.list.any (fun e => e.key = k) then eraseKey c.list k
      else c.list) ≤ sumSizes c.list := by
    split
    · exact sumSizes_eraseKey_le c.list k
    · exact le_refl _
  by_cases hover : c.maxSize < c.currentSize + (sz v : Int)
  · rw [putC_over sz c k v now hover]
    obtain ⟨hdiff, hbound, -⟩ := lazyCleanup_spec
      (({ key := k, value := v, size := sz v, timestamp := now : CEntry α}) ::
        (if c.list.any (fun e => e.key = k) then eraseKey c.list k else c.list))
      (c.currentSize + (sz v : Int)) c.maxSize
    rw [sumSizes_cons] at hdiff
    push_cast at hdiff
    constructor
    · dsimp only [CacheInv]
      omega
    · dsimp only [CacheInv]
      rcases hbound with hnil | hle
      · rw [hnil] at hdiff
        simp only [sumSizes, List.map_nil, List.sum_nil, Nat.cast_zero, sub_zero] at hdiff
        omega
      · exact hle
  · rw [putC_under sz c k v now hover]
    constructor
    · dsimp only [CacheInv]
      rw [sumSizes_cons]
      push_cast
      omega
    · dsimp only [CacheInv]
      omega

theorem putC_evicts_from_lru_end {α : Type} (sz : α → Nat) (c : Cache α) (k : String)
    (v : α) (now : Nat) :
    ∃ dropped, (putC sz c k v now).list ++ dropped =
      ({ key := k, value := v, size := sz v, timestamp := now : CEntry α}) ::
        (if c.list.any (fun e => e.key = k) then eraseKey c.list k else c.list) := by
  by_cases hover : c.maxSize < c.currentSize + (sz v : Int)
  · rw [putC_over sz c k v now hover]
    obtain ⟨-, -, d, hd⟩ := lazyCleanup_spec
      (({ key := k, value := v, size := sz v, timestamp := now : CEntry α}) ::
        (if c.list.any (fun e => e.key = k) then eraseKey c.list k else c.list))
      (c.currentSize + (sz v : Int)) c.maxSize
    exact ⟨d, hd⟩
  · rw [putC_under sz c k v now hover]
    exact ⟨[], by simp⟩

theorem putC_maxSize {α : Type} (sz : α → Nat) (c : Cache α) (k : String) (v : α)
    (now : Nat) : (putC sz c k v now).maxSize = c.maxSize := by
  by_cases hover : c.maxSize < c.currentSize + (sz v : Int)
  · rw [putC_over sz c k v now hover]
  · rw [putC_under sz c k v now hover]

theorem applyPuts_maxSize {α : Type} (sz : α → Nat) :
    ∀ (ps : List (String × α × Nat)) (c : Cache α),
      (applyPuts sz c ps).maxSize = c.maxSize := by
  intro ps
  induction ps with
  | nil => intro c; rfl
  | cons p rest ih =>
      intro c
      obtain ⟨k, v, t⟩ := p
      rw [applyPuts, ih, putC_maxSize]

theorem applyPuts_preserves_inv {α : Type} (sz : α → Nat) :
    ∀ (ps : List (String × α × Nat)) (c : Cache α),
      CacheInv c → CacheInv (applyPuts sz c ps) := by
  intro ps
  induction ps with
  | nil => intro c h; exact h
  | cons p rest ih =>
      intro c h
      obtain ⟨k, v, t⟩ := p
      exact ih _ (putC_preserves_inv sz c k v t h)

/-- Claim C3 (counterexample): inserting a single entry whose size (6)
exceeds the budget (5) into an empty cache evicts the entry just inserted —
the cleanup loop has no guard protecting it — so the oversized entry is not
retrievable even once after its insertion, contrary to the claimed
explicit policy. -/
theorem C3_oversized_entry_evicted :
    (putC String.length (emptyCache String 5 none) "k" "abcdef" 0).list = []
      ∧ (putC String.length (emptyCache String 5 none) "k" "abcdef" 0).currentSize = 0
      ∧ (getCacheC (putC String.length (emptyCache String 5 none) "k" "abcdef" 0) "k" 0).1
          = none :=
  ⟨rfl, rfl, rfl⟩

/-- Claim C3 (amended): eviction removes entries only from the least-recent
end of the recency order, one at a time, until `currentSize <= maxSize` or
the cache is empty; it may remove the entry just inserted (an entry larger
than the whole budget is evicted by its own insertion's cleanup), so after
any sequence of puts each processed to quiescence,
`currentSize <= maxSize` holds unconditionally. -/
theorem C3_eviction_invariant {α : Type} (sz : α → Nat) (c : Cache α) (k : String)
    (v : α) (now : Nat) (m : Int) (ttl : Option Nat) (ps : List (String × α × Nat)) :
    (CacheInv c → CacheInv (putC sz c k v now))
    ∧ (∃ dropped, (putC sz c k v now).list ++ dropped =
        ({ key := k, value := v, size := sz v, timestamp := now : CEntry α}) ::
          (if c.list.any (fun e => e.key = k) then eraseKey c.list k else c.list))
    ∧ (0 ≤ m → (applyPuts sz (emptyCache α m ttl) ps).currentSize ≤ m) :=
  ⟨putC_preserves_inv sz c k v now,
   putC_evicts_from_lru_end sz c k v now,
   fun hm => by
     have hInv := applyPuts_preserves_inv sz ps (emptyCache α m ttl)
       ⟨by simp [emptyCache, sumSizes], by simpa [emptyCache] using hm⟩
     have hms := applyPuts_maxSize sz ps (emptyCache α m ttl)
     have hle := hInv.2
     rw [hms] at hle
     simpa [emptyCache] using hle⟩

/-- Claim C3 (witness): the budget bound after a concrete put sequence,
obtained from the invariant theorem. -/
theorem C3_eviction_invariant_witness :
    ((0:Int) ≤ 4)
      ∧ (applyPuts String.length (emptyCache String 4 none)
          [("a", "xx", 0), ("b", "yyy", 1)]).currentSize ≤ 4 :=
  ⟨by decide,
   (C3_eviction_invariant String.length (emptyCache String 4 none) "a" "xx" 0 4 none
     [("a", "xx", 0), ("b", "yyy", 1)]).2.2 (by decide)⟩

/-- Claim C4: `currentSize` accounting is broken by a put that overwrites an
existing key — the code unlinks the old node but never subtracts its size —
so after two identical 6-byte inserts under the same key the counter reads
12 while the single cached entry sums to 6, violating the claimed
`currentSizeBytes == sum(entries[*].sizeBytes)` invariant (every other
mutation does subtract; the intent of the counter is unmistakable, making
this a slip in the code). -/
theorem C4_overwrite_accounting_bug :
    (putC String.length (putC String.length (emptyCache String 100 none)
        "k" "abcdef" 0) "k" "abcdef" 1).currentSize = 12
      ∧ sumSizes (putC String.length (putC String.length (emptyCache String 100 none)
          "k" "abcdef" 0) "k" "abcdef" 1).list = 6
      ∧ (putC String.length (putC String.length (emptyCache String 100 none)
          "k" "abcdef" 0) "k" "abcdef" 1).currentSize ≠
        (sumSizes (putC String.length (putC String.length (emptyCache String 100 none)
          "k" "abcdef" 0) "k" "abcdef" 1).list : Int) :=
  ⟨rfl, rfl, by decide⟩

/-- Claim C7 (counterexample): with `ttl` configured as 0, a get on an entry
of age 5 (which exceeds the TTL) still returns the value and keeps the
entry — the code's `this.ttl && ...` truthiness test disables expiry for a
zero TTL — so the claim fails for the configured TTL T = 0. -/
theorem C7_zero_ttl_no_expiry :
    getCacheC (⟨[⟨"k", "hi", 2, 0⟩], 2, 100, some 0⟩ : Cache String) "k" 5 =
      (some "hi", ⟨[⟨"k", "hi", 2, 0⟩], 2, 100, some 0⟩) := rfl

/-- Claim C7 (amended): with a configured nonzero TTL T, a cache get on a
key whose entry's age exceeds T evicts that entry (unlinking it and
subtracting its size) and returns a miss, even though the entry was never
explicitly evicted; a get on a non-expired entry moves it to the
most-recent end and returns its value. -/
theorem C7_ttl_expiry {α : Type} (c : Cache α) (k : String) (now T : Nat)
    (e : CEntry α) (hT : c.ttl = some T) (hT0 : T ≠ 0)
    (hfind : c.list.find? (fun x => x.key = k) = some e)
    (_hts : e.timestamp ≤ now) :
    (now - e.timestamp > T →
      getCacheC c k now = (none,
        { c with
          list := eraseKey c.list k,
          currentSize := c.currentSize - (e.size : Int) }))
    ∧ (¬(now - e.timestamp > T) →
      getCacheC c k now = (some e.value, { c with list := e :: eraseKey c.list k })) := by
  constructor
  · intro h
    simp [getCacheC, hfind, ttlExpired, hT, hT0, h, deleteCacheC]
  · intro h
    simp [getCacheC, hfind, ttlExpired, hT, hT0, h]

/-- Claim C7 (witness): a concrete expiry — TTL 3, entry inserted at time
0, get at time 10 — evicts and misses. -/
theorem C7_ttl_expiry_witness :
    (10 - 0 > 3)
      ∧ getCacheC (⟨[⟨"k", "hi", 2, 0⟩], 2, 100, some 3⟩ : Cache String) "k" 10 =
          (none, (⟨[], 0, 100, some 3⟩ : Cache String)) :=
  by
  refine ⟨by decide, ?_⟩
  have h := (C7_ttl_expiry (⟨[⟨"k", "hi", 2, 0⟩], 2, 100, some 3⟩ : Cache String) "k" 10 3
    ⟨"k", "hi", 2, 0⟩ rfl (by decide) rfl (by decide)).1 (by decide)
  exact h.trans rfl

/-! ## Lemmas and claims about the lock protocol -/

theorem acquireGo_success (foreign : Nat → Bool) (start timeout kmin : Nat)
    (hbusy : ∀ j, j < kmin → foreign (start + 10 * j) = true)
    (hfree : foreign (start + 10 * kmin) = false)
    (hwin : 10 * kmin < timeout) :
    ∀ fuel k0, k0 ≤ kmin → kmin + 1 ≤ fuel + k0 →
      acquireGo foreign start timeout (start + 10 * k0) fuel =
        .ok (start + 10 * kmin) := by
  intro fuel
  induction fuel with
  | zero => intro k0 hk hf; omega
  | succ f ih =>
      intro k0 hk hf
      rw [acquireGo]
      rw [if_pos (show start + 10 * k0 - start < timeout by omega)]
      by_cases heq : k0 = kmin
      · subst heq
        simp [hfree]
      · have hlt : k0 < kmin := lt_of_le_of_ne hk heq
        rw [hbusy k0 hlt]
        simp only [if_true]
        have harith : start + 10 * k0 + 10 = start + 10 * (k0 + 1) := by ring
        rw [harith]
        exact ih (k0 + 1) (by omega) (by omega)

theorem acquireGo_busy (foreign : Nat → Bool) (start timeout : Nat)
    (H : ∀ j, 10 * j < timeout → foreign (start + 10 * j) = true) :
    ∀ fuel k0, acquireGo foreign start timeout (start + 10 * k0) fuel =
      .error lockTimeoutMsg := by
  intro fuel
  induction fuel with
  | zero => intro k0; rfl
  | succ f ih =>
      intro k0
      rw [acquireGo]
      by_cases h : 10 * k0 < timeout
      · rw [if_pos (by omega)]
        rw [H k0 h]
        simp only [if_true]
        have harith : start + 10 * k0 + 10 = start + 10 * (k0 + 1) := by ring
        rw [harith]
        exact ih (k0 + 1)
      · rw [if_neg (by omega)]

/-- Claim C8: lock acquisition creates the marker file with the
exclusive-create flag, polling at the fixed 10 ms backoff while the marker
already exists — it succeeds exactly at the first poll instant at which the
marker is absent within the timeout window, fails with the lock-timeout
error when every poll instant within the window finds the marker present —
and every operation run under the lock has the marker deleted afterwards,
whether the operation succeeds or throws. -/
theorem C8_lock_protocol {α : Type} (foreign : Nat → Bool) (start timeout kmin : Nat)
    (op : Except String α) :
    ((∀ j, j < kmin → foreign (start + 10 * j) = true) →
      foreign (start + 10 * kmin) = false → 10 * kmin < timeout →
        acquireLock foreign start timeout = .ok (start + 10 * kmin))
    ∧ ((∀ j, 10 * j < timeout → foreign (start + 10 * j) = true) →
        acquireLock foreign start timeout = .error lockTimeoutMsg)
    ∧ (∀ t, acquireLock foreign start timeout = .ok t →
        withLock foreign start timeout op = (op, false)) := by
  refine ⟨?_, ?_, ?_⟩
  · intro hbusy hfree hwin
    have h := acquireGo_success foreign start timeout kmin hbusy hfree hwin
      (timeout + 1) 0 (by omega) (by omega)
    simpa [acquireLock] using h
  · intro H
    have h := acquireGo_busy foreign start timeout H (timeout + 1) 0
    simpa [acquireLock] using h
  · intro t hok
    cases op <;> simp [withLock, hok, runUnderLock, releaseLock]

/-- Claim C8 (witness): with the marker held by a foreign process until
time 15, polls at 0 and 10 find it present, the poll at 20 acquires; a
failing protected operation still ends with the marker deleted. -/
theorem C8_lock_protocol_witness :
    acquireLock (fun t => Nat.blt t 15) 0 5000 = .ok 20
      ∧ withLock (fun t => Nat.blt t 15) 0 5000 (.error "boom" : Except String Unit) =
          (.error "boom", false) := by
  have h := C8_lock_protocol (α := Unit) (fun t => Nat.blt t 15) 0 5000 2 (.error "boom")
  have hok : acquireLock (fun t => Nat.blt t 15) 0 5000 = .ok 20 := by
    have := h.1 (by decide) (by decide) (by decide)
    simpa using this
  exact ⟨hok, h.2.2 20 hok⟩

end LightDB
